import Mathlib

/-!
Verification development for the copick-shared-ui thumbnail subsystem.

The definitions below are a shallow embedding of the Python sources:
* `gallery/workers/base_workers.py` — tomogram selection
  (`_select_best_tomogram`) and thumbnail slice generation / normalization
  (`_generate_thumbnail_array`);
* `gallery/workers/chimerax_workers.py` — the QRunnable worker `run` body and
  the manager's shared-signal callback wiring;
* `gallery/workers/napari_workers.py` — the thread-worker body and the
  flag-guarded delivery handlers;
* the atomic-replace cache writer described in the specification (the module
  `gallery/cache/thumbnail_cache.py` is not among the provided sources).

Machine floats of the source are modelled by exact rationals `ℚ`; the byte
cast `astype(np.uint8)` is modelled by `Int.floor` followed by `Int.toNat`
(all values produced at valid indices lie in `[0, 255]`, where the two
agree).
-/

namespace CopickUI

/-! ## Data model: runs, voxel spacings, tomograms -/

/-- One tomogram dataset: its free-form `type` tag and an identifier
distinguishing distinct datasets that happen to share a tag. -/
structure Tomogram where
  tomo_type : String
  tid : Nat
deriving DecidableEq, Repr

/-- One voxel spacing of a run: its physical size and its tomograms. -/
structure VoxelSpacing where
  voxel_size : Int
  tomograms : List Tomogram
deriving DecidableEq, Repr

/-- A run: a collection of voxel spacings. -/
structure Run where
  voxel_spacings : List VoxelSpacing
deriving DecidableEq, Repr

/-- A tomogram together with the voxel size of its parent spacing, as used by
the selection loop (`tomo.voxel_spacing.voxel_size` in the source). -/
structure TomoRef where
  tomo_type : String
  voxel_size : Int
  tid : Nat
deriving DecidableEq, Repr

/-- `for vs in run.voxel_spacings: for tomo in vs.tomograms: append` —
all tomograms of the run, each paired with its spacing's voxel size. -/
def allTomograms (run : Run) : List TomoRef :=
  run.voxel_spacings.flatMap fun vs =>
    vs.tomograms.map fun t => ⟨t.tomo_type, vs.voxel_size, t.tid⟩

/-! ## String matching (`preferred_type.lower() in tomo.tomo_type.lower()`) -/

/-- Python `str.lower()` (character-wise lowercasing; the type tags involved
are ASCII, where `Char.toLower` and Python agree). -/
def pyLower (s : String) : String :=
  ⟨s.data.map Char.toLower⟩

/-- Whether `needle` occurs contiguously in `hay` starting at the head. -/
def headMatch : List Char → List Char → Bool
  | _, [] => true
  | [], _ :: _ => false
  | h :: hs, n :: ns => h == n && headMatch hs ns

/-- Python substring test `needle in hay` on character lists. -/
def hasSubstr : List Char → List Char → Bool
  | [], needle => needle.isEmpty
  | h :: t, needle => headMatch (h :: t) needle || hasSubstr t needle

/-- The source's match test:
`preferred_type.lower() in tomo.tomo_type.lower()`. -/
def typeMatches (pref : String) (tag : String) : Bool :=
  hasSubstr (pyLower tag).data (pyLower pref).data

/-! ## Descending sort of the distinct voxel sizes
(`sorted({...}, reverse=True)`) -/

/-- Insert into a descending-sorted list, keeping it descending. -/
def insertDesc (x : Int) : List Int → List Int
  | [] => [x]
  | y :: ys => if y ≤ x then x :: y :: ys else y :: insertDesc x ys

/-- Sort a list of voxel sizes in descending order. -/
def sortDesc (l : List Int) : List Int :=
  l.foldr insertDesc []

/-! ## The selector (`_select_best_tomogram`) -/

/-- Preference order for tomogram types (denoised first), as in the source. -/
def preferred_types : List String := ["denoised", "wbp"]

/-- Inner loops of the selector: for each preferred type in order, return the
first tomogram of the group whose lowered tag contains it. -/
def findByTypes : List String → List TomoRef → Option TomoRef
  | [], _ => none
  | p :: ps, toms =>
    match toms.find? (fun t => typeMatches p t.tomo_type) with
    | some t => some t
    | none => findByTypes ps toms

/-- Outer loop of the selector over the descending voxel sizes; the trailing
`[]` case is the source's final fallback `all_tomograms[0] if ... else None`. -/
def spacingLoop (all : List TomoRef) : List Int → Option TomoRef
  | [] => all.head?
  | s :: rest =>
    let vs_toms := all.filter fun t => t.voxel_size == s
    match findByTypes preferred_types vs_toms with
    | some t => some t
    | none => if vs_toms.isEmpty then spacingLoop all rest else vs_toms.head?

/-- `_select_best_tomogram` from `gallery/workers/base_workers.py`. -/
def select_best_tomogram (run : Run) : Option TomoRef :=
  if (allTomograms run).isEmpty then none
  else
    spacingLoop (allTomograms run)
      (sortDesc (((allTomograms run).map fun t => t.voxel_size).dedup))

/-! ## Thumbnail generation (`_generate_thumbnail_array`)

The selected zarr resolution level is an indexable numeric array with a
stored shape; machine floats are modelled by `ℚ` and `astype(np.uint8)` by
`Int.floor` / `Int.toNat` (they agree on the `[0, 255]` values produced at
valid indices). -/

/-- The source's `target_size = 200`. -/
def target_size : Nat := 200

/-- A zarr resolution level: its stored shape and its samples, indexed by a
multi-index. -/
structure ZarrArray where
  shape : List Nat
  val : List Nat → ℚ

/-- A two-dimensional numeric array (the extracted slice). -/
structure Mat where
  rows : Nat
  cols : Nat
  val : Nat → Nat → ℚ

/-- A two-dimensional array of byte samples (the normalized thumbnail). -/
structure ByteMat where
  rows : Nat
  cols : Nat
  val : Nat → Nat → Nat

/-- Length of the numpy basic slice `0 : n : step` (indices `0, step, …`
below `n`), for `step ≥ 1`. -/
def npSliceLen (n step : Nat) : Nat := (n + step - 1) / step

/-- Lines 107–127 of `base_workers.py`: unpack
`z_size, y_size, x_size = tomo_data.shape` (any other rank raises and is
caught, yielding `None`), take the middle plane `mid_z = z_size // 2`
(an empty depth axis raises `IndexError`, also yielding `None`), and stride
the remaining axes by `max(1, dim // target_size)`. -/
def generate_slice (a : ZarrArray) : Option Mat :=
  match a.shape with
  | [z, y, x] =>
    if z = 0 then none
    else
      some ⟨npSliceLen y (max 1 (y / target_size)),
            npSliceLen x (max 1 (x / target_size)),
            fun i j =>
              a.val [z / 2, i * max 1 (y / target_size),
                j * max 1 (x / target_size)]⟩
  | _ => none

/-- All samples of a 2D array, row-major (the reduction domain of
`slice_array.min()` / `.max()`). -/
def matEntries (m : Mat) : List ℚ :=
  (List.range m.rows).flatMap fun i => (List.range m.cols).map fun j => m.val i j

/-- `slice_array.min()` on a nonempty sample list. -/
def pyMin (l : List ℚ) : ℚ := l.foldl min (l.headD 0)

/-- `slice_array.max()` on a nonempty sample list. -/
def pyMax (l : List ℚ) : ℚ := l.foldl max (l.headD 0)

/-- Lines 129–137 of `base_workers.py`: if `data_max > data_min`, map each
sample through `(v - min) / (max - min) * 255` and cast to `uint8`
(truncation; the values are in `[0, 255]`, so this is the floor); otherwise
produce `np.zeros_like(slice_array, dtype=np.uint8)`. -/
def normalizeMat (m : Mat) : ByteMat :=
  if pyMin (matEntries m) < pyMax (matEntries m) then
    ⟨m.rows, m.cols, fun i j =>
      (⌊(m.val i j - pyMin (matEntries m)) /
          (pyMax (matEntries m) - pyMin (matEntries m)) * 255⌋).toNat⟩
  else
    ⟨m.rows, m.cols, fun _ _ => 0⟩

/-- `_generate_thumbnail_array`: extract the decimated middle slice, then
normalize; a zero-size slice makes `.min()` raise, which the handler turns
into `None`. -/
def generate_thumbnail_array (a : ZarrArray) : Option ByteMat :=
  match generate_slice a with
  | none => none
  | some m => if matEntries m = [] then none else some (normalizeMat m)

/-! ## ChimeraX worker manager (`chimerax_workers.py`)

`ChimeraXWorkerManager` owns a single `ChimeraXWorkerSignals` object;
`start_thumbnail_worker` connects each submitted callback to that one
shared `thumbnail_loaded` signal, and every worker emits on it once when
it finishes. Qt emission invokes every connected slot with the emitted
arguments. -/

/-- One invocation of a connected slot: which callback ran, and the
emitted `(thumbnail_id, has-result)` payload. -/
structure SlotCall where
  cb : Nat
  tid : String
  ok : Bool
deriving DecidableEq, Repr

/-- The manager's callback wiring: the connection list of the shared
`thumbnail_loaded` signal, and the scheduled worker ids. -/
structure MgrState where
  connections : List Nat
  pending : List String
deriving DecidableEq, Repr

/-- A freshly constructed manager: no connections, no workers. -/
def mgr0 : MgrState := ⟨[], []⟩

/-- `start_thumbnail_worker` (lines 158–175): connect the callback to the
shared signal, then schedule one worker for the id. -/
def start_thumbnail_worker (st : MgrState) (cb : Nat) (tid : String) :
    MgrState :=
  ⟨st.connections ++ [cb], st.pending ++ [tid]⟩

/-- A worker's single terminal emission on the shared signal: Qt invokes
every connected slot with the same arguments. -/
def emitLoaded (st : MgrState) (tid : String) (ok : Bool) : List SlotCall :=
  st.connections.map fun cb => ⟨cb, tid, ok⟩

/-! ## Worker run bodies and cancellation flags -/

/-- Which of the three pipeline stages succeed (tomogram selection,
thumbnail-array generation, pixmap conversion). -/
structure StageFlags where
  selectOk : Bool
  genOk : Bool
  pixOk : Bool
deriving DecidableEq, Repr

/-- `ChimeraXThumbnailWorker.run` (lines 66–93): the cancellation flag is
read exactly once, at entry (`flagAt 0`, before tomogram selection); the
later stage boundaries — `1` before slice generation, `2` before pixmap
conversion, `3` before the final emission — never read it. The result is
the list of `(has-result, error)` callbacks emitted. -/
def chimeraxRun (fl : StageFlags) (flagAt : Nat → Bool) :
    List (Bool × Option String) :=
  if flagAt 0 then []
  else if fl.selectOk = false then [(false, some "No tomogram found")]
  else if fl.genOk = false then [(false, some "Failed to generate thumbnail")]
  else if fl.pixOk = false then [(false, some "Failed to convert to pixmap")]
  else [(true, none)]

/-- The napari `load_thumbnail` body (`napari_workers.py` lines 58–95): one
flag check at entry, then the pipeline, returning the `(pixmap?, error?)`
pair handed to the delivery handler. -/
def napariLoad (fl : StageFlags) (flagStart : Bool) : Bool × Option String :=
  if flagStart then (false, some "Cancelled")
  else if fl.selectOk = false then (false, some "No tomogram found")
  else if fl.genOk = false then (false, some "Failed to generate thumbnail")
  else if fl.pixOk = false then (false, some "Failed to convert to pixmap")
  else (true, none)

/-- `NapariThumbnailWorker._on_worker_finished` (lines 119–125): if the
flag is set when the result arrives, return without invoking the callback;
otherwise invoke it once with the result. -/
def napariOnFinished (flagAtDelivery : Bool) (r : Bool × Option String) :
    List (Bool × Option String) :=
  if flagAtDelivery then [] else [r]

/-- `NapariThumbnailWorker._on_worker_error` (lines 127–132): same guard
for the errored path. -/
def napariOnError (flagAtDelivery : Bool) (err : String) :
    List (Bool × Option String) :=
  if flagAtDelivery then [] else [(false, some err)]

/-- One napari task: run the body with the flag's value at start, then
deliver with the flag's value at delivery time. -/
def napariRun (fl : StageFlags) (flagStart flagAtDelivery : Bool) :
    List (Bool × Option String) :=
  napariOnFinished flagAtDelivery (napariLoad fl flagStart)

/-! ## Thumbnail cache writer (spec-modelled)

Modelled from the spec: the module `gallery/cache/thumbnail_cache.py`
implementing `ThumbnailCache` is not among the provided sources (only its
importers are), so the save path is modelled from §4.3: "encodes via
ImageCodec and writes atomically (write to a temporary path, then
rename/replace) so concurrent readers never observe a partially written
file". -/

/-- Observable content of a file: still being written, or fully written. -/
inductive FileData where
  | writing (sofar : List Nat)
  | complete (bytes : List Nat)
deriving DecidableEq, Repr

/-- The cache directory: the key-indexed main area read by `load`, and the
temporary area private to writers. -/
structure CacheFS where
  main : String → Option FileData
  tmp : Nat → Option FileData

/-- One atomic filesystem action of a save execution. -/
inductive SaveStep where
  | tmpOpen (t : Nat)
  | tmpAppend (t : Nat) (b : Nat)
  | tmpClose (t : Nat)
  | renameTo (t : Nat) (key : String)
deriving DecidableEq, Repr

/-- Modelled from the spec: the effect of each save action. Writing happens
only in the temporary area; `renameTo` is the single action touching the
key-indexed main area, and it atomically installs a finished temp file
(an unfinished or missing temp file renames nothing). -/
def applyStep (s : CacheFS) : SaveStep → CacheFS
  | .tmpOpen t =>
    { s with tmp := fun u => if u = t then some (.writing []) else s.tmp u }
  | .tmpAppend t b =>
    { s with tmp := fun u =>
        if u = t then
          match s.tmp t with
          | some (.writing ws) => some (.writing (ws ++ [b]))
          | o => o
        else s.tmp u }
  | .tmpClose t =>
    { s with tmp := fun u =>
        if u = t then
          match s.tmp t with
          | some (.writing ws) => some (.complete ws)
          | o => o
        else s.tmp u }
  | .renameTo t k =>
    match s.tmp t with
    | some (.complete bs) =>
      { main := fun k2 => if k2 = k then some (.complete bs) else s.main k2,
        tmp := fun u => if u = t then none else s.tmp u }
    | _ => s

/-- Run an arbitrary interleaving of save actions. -/
def runSteps (s : CacheFS) (steps : List SaveStep) : CacheFS :=
  steps.foldl applyStep s

/-- An empty cache directory. -/
def emptyFS : CacheFS := ⟨fun _ => none, fun _ => none⟩

/-- The step sequence of one `save` call: open a temp file, write the
payload, close it, rename it onto the key. -/
def saveProgram (t : Nat) (key : String) (data : List Nat) : List SaveStep :=
  [SaveStep.tmpOpen t] ++ data.map (SaveStep.tmpAppend t) ++
    [SaveStep.tmpClose t, SaveStep.renameTo t key]

/-- Every cache entry a reader can observe is a fully written file. -/
def mainAllComplete (s : CacheFS) : Prop :=
  ∀ k d, s.main k = some d → ∃ bs, d = FileData.complete bs

/-! ## Concrete instances used by witnesses and counterexamples -/

/-- A run whose coarsest spacing (10) holds a "wbp" and a "denoised"
tomogram, plus a finer spacing (5). -/
def demoRunA : Run :=
  ⟨[⟨10, [⟨"wbp", 1⟩, ⟨"denoised", 2⟩]⟩, ⟨5, [⟨"sirt", 3⟩]⟩]⟩

/-- A run whose coarsest spacing (12) holds no "denoised" tomogram but a
"WBP-filtered" one, with a finer spacing (4) listed first. -/
def demoRunB : Run :=
  ⟨[⟨4, [⟨"sart", 7⟩]⟩, ⟨12, [⟨"raw", 5⟩, ⟨"WBP-filtered", 6⟩]⟩]⟩

/-- A resolution level of shape `(200, 1000, 1000)`. -/
def demoLevel : ZarrArray := ⟨[200, 1000, 1000], fun _ => 0⟩

/-- A channel-bearing source: shape `(2, 4, 4, 3)`, trailing RGB axis. -/
def chanLevelA : ZarrArray := ⟨[2, 4, 4, 3], fun _ => 0⟩

/-- A channel-bearing source: shape `(3, 5, 5, 4)`, trailing RGBA axis. -/
def chanLevelB : ZarrArray := ⟨[3, 5, 5, 4], fun _ => 0⟩

/-- A `1 × 3` slice holding the samples `10, 15, 20`. -/
def demoSlice : Mat :=
  ⟨1, 3, fun _ j => if j = 0 then 10 else if j = 1 then 15 else 20⟩

/-- A manager that received two submissions: callback 1 for "id1", then
callback 2 for "id2". -/
def demoMgr : MgrState :=
  start_thumbnail_worker (start_thumbnail_worker mgr0 1 "id1") 2 "id2"

/-- A state whose temp area holds one finished file under temp id 0. -/
def demoFS : CacheFS :=
  ⟨fun _ => none, fun t => if t = 0 then some (.complete [7, 9]) else none⟩

/-! ## Lemmas about the descending sort -/

lemma mem_insertDesc {x a : Int} : ∀ {l : List Int},
    a ∈ insertDesc x l ↔ a = x ∨ a ∈ l := by
  intro l
  induction l with
  | nil => simp [insertDesc]
  | cons y ys ih =>
    by_cases hyx : y ≤ x
    · simp [insertDesc, hyx]
    · simp only [insertDesc, if_neg hyx, List.mem_cons, ih]
      tauto

lemma pairwise_insertDesc {x : Int} : ∀ {l : List Int},
    l.Pairwise (fun a b => b ≤ a) →
    (insertDesc x l).Pairwise (fun a b => b ≤ a) := by
  intro l
  induction l with
  | nil => intro _; simp [insertDesc]
  | cons y ys ih =>
    intro hp
    rcases List.pairwise_cons.mp hp with ⟨hy, hys⟩
    by_cases hyx : y ≤ x
    · simp only [insertDesc, if_pos hyx]
      refine List.pairwise_cons.mpr ⟨?_, hp⟩
      intro b hb
      rcases List.mem_cons.mp hb with rfl | hb
      · exact hyx
      · exact le_trans (hy b hb) hyx
    · simp only [insertDesc, if_neg hyx]
      refine List.pairwise_cons.mpr ⟨?_, ih hys⟩
      intro b hb
      rcases mem_insertDesc.mp hb with rfl | hb
      · exact le_of_not_le hyx
      · exact hy b hb

lemma mem_sortDesc {a : Int} : ∀ {l : List Int}, a ∈ sortDesc l ↔ a ∈ l := by
  intro l
  induction l with
  | nil => simp [sortDesc]
  | cons y ys ih =>
    show a ∈ insertDesc y (sortDesc ys) ↔ _
    rw [mem_insertDesc]
    simp [ih]

lemma pairwise_sortDesc : ∀ (l : List Int),
    (sortDesc l).Pairwise (fun a b => b ≤ a) := by
  intro l
  induction l with
  | nil => simp [sortDesc]
  | cons y ys ih => exact pairwise_insertDesc ih

lemma sortDesc_ne_nil {l : List Int} (h : l ≠ []) : sortDesc l ≠ [] := by
  cases l with
  | nil => exact absurd rfl h
  | cons y ys =>
    intro hc
    have : y ∈ sortDesc (y :: ys) := mem_sortDesc.mpr (List.mem_cons_self y ys)
    rw [hc] at this
    exact absurd this (List.not_mem_nil y)

/-! ## Small helpers for `Option`-returning list lookups -/

lemma head?_of_ne_nil {α : Type} {l : List α} (h : l ≠ []) :
    ∃ a, l.head? = some a := by
  cases l with
  | nil => exact absurd rfl h
  | cons a t => exact ⟨a, rfl⟩

lemma mem_of_head?_eq_some {α : Type} {l : List α} {a : α}
    (h : l.head? = some a) : a ∈ l := by
  cases l with
  | nil => simp at h
  | cons b t =>
    have : b = a := by simpa using h
    exact this ▸ List.mem_cons_self b t

/-! ## Characterization of the selector -/

lemma select_of_nil {run : Run} (h : allTomograms run = []) :
    select_best_tomogram run = none := by
  simp [select_best_tomogram, h]

lemma select_eq_loop {run : Run} (h : allTomograms run ≠ []) :
    select_best_tomogram run =
      spacingLoop (allTomograms run)
        (sortDesc (((allTomograms run).map fun t => t.voxel_size).dedup)) := by
  have hb : (allTomograms run).isEmpty = false := by
    cases hE : allTomograms run with
    | nil => exact absurd hE h
    | cons a t => rfl
  simp [select_best_tomogram, hb]

/-- Core characterization of `_select_best_tomogram` on a nonempty run: the
selection happens entirely inside the group of tomograms at the maximum
voxel size present (the coarsest spacing), first by the "denoised" substring
test, then by "wbp", then positionally. -/
lemma selectAux (run : Run) (h : allTomograms run ≠ []) :
    ∃ M,
      M ∈ (allTomograms run).map (fun t => t.voxel_size) ∧
      (∀ u ∈ allTomograms run, u.voxel_size ≤ M) ∧
      ((allTomograms run).filter fun u => u.voxel_size == M) ≠ [] ∧
      select_best_tomogram run =
        (match ((allTomograms run).filter fun u => u.voxel_size == M).find?
            (fun u => typeMatches "denoised" u.tomo_type) with
         | some t => some t
         | none =>
           match ((allTomograms run).filter fun u => u.voxel_size == M).find?
               (fun u => typeMatches "wbp" u.tomo_type) with
           | some t => some t
           | none =>
             ((allTomograms run).filter fun u => u.voxel_size == M).head?) := by
  have hsz : (allTomograms run).map (fun t => t.voxel_size) ≠ [] := by
    intro hc
    exact h (List.map_eq_nil_iff.mp hc)
  have hdd : ((allTomograms run).map fun t => t.voxel_size).dedup ≠ [] := by
    intro hc
    exact hsz ((List.dedup_eq_nil _).mp hc)
  have hsort := sortDesc_ne_nil hdd
  obtain ⟨M, rest, hMr⟩ :
      ∃ M rest,
        sortDesc (((allTomograms run).map fun t => t.voxel_size).dedup) =
          M :: rest := by
    cases hE : sortDesc (((allTomograms run).map fun t => t.voxel_size).dedup) with
    | nil => exact absurd hE hsort
    | cons a t => exact ⟨a, t, rfl⟩
  have hMmem : M ∈ (allTomograms run).map fun t => t.voxel_size := by
    have hm : M ∈ sortDesc (((allTomograms run).map fun t => t.voxel_size).dedup) := by
      rw [hMr]; exact List.mem_cons_self _ _
    exact List.mem_dedup.mp (mem_sortDesc.mp hm)
  have hMmax : ∀ u ∈ allTomograms run, u.voxel_size ≤ M := by
    intro u hu
    have husz :
        u.voxel_size ∈
          sortDesc (((allTomograms run).map fun t => t.voxel_size).dedup) :=
      mem_sortDesc.mpr (List.mem_dedup.mpr (List.mem_map.mpr ⟨u, hu, rfl⟩))
    rw [hMr] at husz
    rcases List.mem_cons.mp husz with hEq | hm
    · exact le_of_eq hEq
    · have hpw := pairwise_sortDesc (((allTomograms run).map fun t => t.voxel_size).dedup)
      rw [hMr] at hpw
      exact (List.pairwise_cons.mp hpw).1 _ hm
  have hgne : ((allTomograms run).filter fun u => u.voxel_size == M) ≠ [] := by
    obtain ⟨u, hu, huM⟩ := List.mem_map.mp hMmem
    have : u ∈ (allTomograms run).filter fun u => u.voxel_size == M :=
      List.mem_filter.mpr ⟨hu, by simp [huM]⟩
    exact List.ne_nil_of_mem this
  refine ⟨M, hMmem, hMmax, hgne, ?_⟩
  rw [select_eq_loop h, hMr]
  simp only [spacingLoop, findByTypes, preferred_types]
  have hgE : ((allTomograms run).filter fun u => u.voxel_size == M).isEmpty = false := by
    cases hE : (allTomograms run).filter fun u => u.voxel_size == M with
    | nil => exact absurd hE hgne
    | cons a t => rfl
  cases hfd : ((allTomograms run).filter fun u => u.voxel_size == M).find?
      (fun u => typeMatches "denoised" u.tomo_type) with
  | some t => simp [hfd]
  | none =>
    cases hfw : ((allTomograms run).filter fun u => u.voxel_size == M).find?
        (fun u => typeMatches "wbp" u.tomo_type) with
    | some t => simp [hfd, hfw]
    | none => simp [hfd, hfw, hgE]

/-! ## Lemmas about reductions and decimation counts -/

lemma foldl_min_le_init : ∀ (l : List ℚ) (a : ℚ), l.foldl min a ≤ a := by
  intro l
  induction l with
  | nil => intro a; exact le_refl a
  | cons x xs ih =>
    intro a
    exact le_trans (ih (min a x)) (min_le_left a x)

lemma foldl_min_le_mem : ∀ {l : List ℚ} {v : ℚ} (a : ℚ), v ∈ l → l.foldl min a ≤ v := by
  intro l
  induction l with
  | nil => intro v a hv; simp at hv
  | cons x xs ih =>
    intro v a hv
    rcases List.mem_cons.mp hv with rfl | hv
    · exact le_trans (foldl_min_le_init xs (min a v)) (min_le_right a v)
    · exact ih (min a x) hv

lemma init_le_foldl_max : ∀ (l : List ℚ) (a : ℚ), a ≤ l.foldl max a := by
  intro l
  induction l with
  | nil => intro a; exact le_refl a
  | cons x xs ih =>
    intro a
    exact le_trans (le_max_left a x) (ih (max a x))

lemma mem_le_foldl_max : ∀ {l : List ℚ} {v : ℚ} (a : ℚ), v ∈ l → v ≤ l.foldl max a := by
  intro l
  induction l with
  | nil => intro v a hv; simp at hv
  | cons x xs ih =>
    intro v a hv
    rcases List.mem_cons.mp hv with rfl | hv
    · exact le_trans (le_max_right a v) (init_le_foldl_max xs (max a v))
    · exact ih (max a x) hv

lemma pyMin_le_mem {l : List ℚ} {v : ℚ} (hv : v ∈ l) : pyMin l ≤ v :=
  foldl_min_le_mem _ hv

lemma mem_le_pyMax {l : List ℚ} {v : ℚ} (hv : v ∈ l) : v ≤ pyMax l :=
  mem_le_foldl_max _ hv

lemma mat_val_mem_entries (m : Mat) {i j : Nat}
    (hi : i < m.rows) (hj : j < m.cols) : m.val i j ∈ matEntries m :=
  List.mem_flatMap.mpr
    ⟨i, List.mem_range.mpr hi, List.mem_map.mpr ⟨j, List.mem_range.mpr hj, rfl⟩⟩

/-- The closed form `(n + k - 1) / k` counts exactly the indices below `n`
retained by a stride-`k` decimation. -/
lemma filter_mod_length {k : Nat} (hk : 0 < k) :
    ∀ n, ((List.range n).filter fun i => i % k == 0).length = (n + k - 1) / k := by
  intro n
  induction n with
  | zero =>
    simp only [List.range_zero, List.filter_nil, List.length_nil, Nat.zero_add]
    exact (Nat.div_eq_of_lt (Nat.sub_lt hk Nat.one_pos)).symm
  | succ n ih =>
    rw [List.range_succ, List.filter_append, List.length_append, ih]
    have h2 : n + 1 + k - 1 = n + k := by omega
    rw [h2, Nat.add_div_right _ hk]
    by_cases hnk : n % k = 0
    · have hone : (List.filter (fun i => i % k == 0) [n]).length = 1 := by
        simp [hnk]
      rw [hone]
      cases n with
      | zero =>
        rw [Nat.zero_add, Nat.div_eq_of_lt (Nat.sub_lt hk Nat.one_pos),
          Nat.div_eq_of_lt hk]
      | succ m =>
        have h1 : m + 1 + k - 1 = m + k := by omega
        have hdvd : k ∣ m + 1 := (Nat.dvd_iff_mod_eq_zero).mpr hnk
        rw [h1, Nat.add_div_right _ hk, Nat.succ_div, if_pos hdvd]
    · have hzero : (List.filter (fun i => i % k == 0) [n]).length = 0 := by
        simp [hnk]
      rw [hzero]
      have hn0 : n ≠ 0 := by
        intro hc
        exact hnk (by simp [hc])
      obtain ⟨m, rfl⟩ := Nat.exists_eq_succ_of_ne_zero hn0
      have h1 : m + 1 + k - 1 = m + k := by omega
      have hndvd : ¬ k ∣ m + 1 := fun hc =>
        hnk ((Nat.dvd_iff_mod_eq_zero).mp hc)
      rw [h1, Nat.add_div_right _ hk, Nat.succ_div, if_neg hndvd]

/-! ## Claim theorems: selector -/

/-- Claim C1: for every run with at least one dataset,
`_select_best_tomogram` works at the coarsest voxel spacing (the maximum
voxel size present): it returns the first dataset there whose type tag
contains "denoised" (case-insensitively); failing that, the first whose tag
contains "wbp"; failing that, the first dataset of that spacing group in
enumeration order. -/
theorem claim_C1_selector_coarsest_preference (run : Run)
    (h : allTomograms run ≠ []) :
    ∃ M,
      M ∈ (allTomograms run).map (fun t => t.voxel_size) ∧
      (∀ u ∈ allTomograms run, u.voxel_size ≤ M) ∧
      (∀ t, ((allTomograms run).filter fun u => u.voxel_size == M).find?
            (fun u => typeMatches "denoised" u.tomo_type) = some t →
          select_best_tomogram run = some t) ∧
      (((allTomograms run).filter fun u => u.voxel_size == M).find?
            (fun u => typeMatches "denoised" u.tomo_type) = none →
        ∀ t, ((allTomograms run).filter fun u => u.voxel_size == M).find?
            (fun u => typeMatches "wbp" u.tomo_type) = some t →
          select_best_tomogram run = some t) ∧
      (((allTomograms run).filter fun u => u.voxel_size == M).find?
            (fun u => typeMatches "denoised" u.tomo_type) = none →
        ((allTomograms run).filter fun u => u.voxel_size == M).find?
            (fun u => typeMatches "wbp" u.tomo_type) = none →
        select_best_tomogram run =
          ((allTomograms run).filter fun u => u.voxel_size == M).head?) := by
  obtain ⟨M, hMmem, hMmax, _, hsel⟩ := selectAux run h
  refine ⟨M, hMmem, hMmax, ?_, ?_, ?_⟩
  · intro t hfd
    rw [hsel, hfd]
  · intro hfd t hfw
    rw [hsel, hfd, hfw]
  · intro hfd hfw
    rw [hsel, hfd, hfw]

/-- Witness for C1: on `demoRunA` (whose coarsest spacing holds a "wbp" and
a "denoised" dataset) the hypotheses hold and the selector picks the
"denoised" dataset. -/
theorem claim_C1_witness :
    allTomograms demoRunA ≠ [] ∧
    select_best_tomogram demoRunA = some ⟨"denoised", 10, 2⟩ ∧
    (∃ M,
      M ∈ (allTomograms demoRunA).map (fun t => t.voxel_size) ∧
      (∀ u ∈ allTomograms demoRunA, u.voxel_size ≤ M) ∧
      (∀ t, ((allTomograms demoRunA).filter fun u => u.voxel_size == M).find?
            (fun u => typeMatches "denoised" u.tomo_type) = some t →
          select_best_tomogram demoRunA = some t) ∧
      (((allTomograms demoRunA).filter fun u => u.voxel_size == M).find?
            (fun u => typeMatches "denoised" u.tomo_type) = none →
        ∀ t, ((allTomograms demoRunA).filter fun u => u.voxel_size == M).find?
            (fun u => typeMatches "wbp" u.tomo_type) = some t →
          select_best_tomogram demoRunA = some t) ∧
      (((allTomograms demoRunA).filter fun u => u.voxel_size == M).find?
            (fun u => typeMatches "denoised" u.tomo_type) = none →
        ((allTomograms demoRunA).filter fun u => u.voxel_size == M).find?
            (fun u => typeMatches "wbp" u.tomo_type) = none →
        select_best_tomogram demoRunA =
          ((allTomograms demoRunA).filter fun u => u.voxel_size == M).head?)) :=
  ⟨by decide, by decide,
    claim_C1_selector_coarsest_preference demoRunA (by decide)⟩

/-- Claim C6: the selector returns `none` exactly when the run holds no
dataset at all; on any nonempty run it returns some dataset (and, being a
total function, it never fails, whatever the type strings are). -/
theorem claim_C6_none_iff_no_datasets (run : Run) :
    select_best_tomogram run = none ↔ allTomograms run = [] := by
  constructor
  · intro hnone
    by_contra hne
    obtain ⟨M, _, _, hgne, hsel⟩ := selectAux run hne
    rw [hsel] at hnone
    cases hfd : ((allTomograms run).filter fun u => u.voxel_size == M).find?
        (fun u => typeMatches "denoised" u.tomo_type) with
    | some t => rw [hfd] at hnone; simp at hnone
    | none =>
      cases hfw : ((allTomograms run).filter fun u => u.voxel_size == M).find?
          (fun u => typeMatches "wbp" u.tomo_type) with
      | some t => rw [hfd, hfw] at hnone; simp at hnone
      | none =>
        rw [hfd, hfw] at hnone
        obtain ⟨a, ha⟩ := head?_of_ne_nil hgne
        rw [ha] at hnone
        simp at hnone
  · exact select_of_nil

/-- Claim C9: whenever the selector returns a dataset, that dataset belongs
to the run and sits at the coarsest voxel spacing present (its voxel size
is maximal among all the run's datasets); the finer spacings and the final
fallback are never the source of the result. -/
theorem claim_C9_result_in_coarsest_group (run : Run) (t : TomoRef)
    (h : select_best_tomogram run = some t) :
    t ∈ allTomograms run ∧
    ∀ u ∈ allTomograms run, u.voxel_size ≤ t.voxel_size := by
  have hne : allTomograms run ≠ [] := by
    intro he
    rw [select_of_nil he] at h
    simp at h
  obtain ⟨M, _, hMmax, _, hsel⟩ := selectAux run hne
  rw [hsel] at h
  have htg : t ∈ (allTomograms run).filter fun u => u.voxel_size == M := by
    cases hfd : ((allTomograms run).filter fun u => u.voxel_size == M).find?
        (fun u => typeMatches "denoised" u.tomo_type) with
    | some u =>
      rw [hfd] at h
      simp only [Option.some.injEq] at h
      exact h ▸ List.mem_of_find?_eq_some hfd
    | none =>
      cases hfw : ((allTomograms run).filter fun u => u.voxel_size == M).find?
          (fun u => typeMatches "wbp" u.tomo_type) with
      | some u =>
        rw [hfd, hfw] at h
        simp only [Option.some.injEq] at h
        exact h ▸ List.mem_of_find?_eq_some hfw
      | none =>
        rw [hfd, hfw] at h
        exact mem_of_head?_eq_some h
  have hmem := List.mem_filter.mp htg
  have hsize : t.voxel_size = M := by simpa using hmem.2
  refine ⟨hmem.1, ?_⟩
  rw [hsize]
  exact hMmax

/-- Witness for C9: on `demoRunB` the selector returns the "WBP-filtered"
dataset of the coarsest spacing 12, and that dataset's voxel size bounds
every dataset of the run. -/
theorem claim_C9_witness :
    (⟨"WBP-filtered", 12, 6⟩ : TomoRef) ∈ allTomograms demoRunB ∧
    ∀ u ∈ allTomograms demoRunB,
      u.voxel_size ≤ (⟨"WBP-filtered", 12, 6⟩ : TomoRef).voxel_size :=
  claim_C9_result_in_coarsest_group demoRunB ⟨"WBP-filtered", 12, 6⟩ (by decide)

/-! ## Claim theorems: slice generation and normalization -/

/-- Claim C2: on a level of shape `(depth, height, width)` with a nonempty
depth axis, the generator extracts the plane at index `depth / 2` and
decimates the remaining axes with strides `max 1 (height / 200)` and
`max 1 (width / 200)`: output sample `(i, j)` is exactly the source sample
at `(depth / 2, i·strideY, j·strideX)` (pure decimation, no interpolation),
and the output extents count exactly the retained indices. -/
theorem claim_C2_middle_slice_strides (a : ZarrArray) (z y x : Nat)
    (hshape : a.shape = [z, y, x]) (hz : 0 < z) :
    ∃ m, generate_slice a = some m ∧
      (∀ i j, m.val i j =
        a.val [z / 2, i * max 1 (y / target_size),
          j * max 1 (x / target_size)]) ∧
      m.rows =
        ((List.range y).filter fun i => i % max 1 (y / target_size) == 0).length ∧
      m.cols =
        ((List.range x).filter fun j => j % max 1 (x / target_size) == 0).length := by
  have hzne : ¬ z = 0 := Nat.pos_iff_ne_zero.mp hz
  have hky : 0 < max 1 (y / target_size) :=
    lt_of_lt_of_le Nat.zero_lt_one (le_max_left 1 _)
  have hkx : 0 < max 1 (x / target_size) :=
    lt_of_lt_of_le Nat.zero_lt_one (le_max_left 1 _)
  refine ⟨⟨npSliceLen y (max 1 (y / target_size)),
      npSliceLen x (max 1 (x / target_size)),
      fun i j =>
        a.val [z / 2, i * max 1 (y / target_size),
          j * max 1 (x / target_size)]⟩, ?_, ?_, ?_, ?_⟩
  · simp [generate_slice, hshape, hzne]
  · intro i j
    rfl
  · show npSliceLen y (max 1 (y / target_size)) = _
    rw [npSliceLen, filter_mod_length hky]
  · show npSliceLen x (max 1 (x / target_size)) = _
    rw [npSliceLen, filter_mod_length hkx]

/-- Witness for C2: a level of shape `(200, 1000, 1000)` yields middle-slice
index `100` and strides `(5, 5)`. -/
theorem claim_C2_witness :
    demoLevel.shape = [200, 1000, 1000] ∧ 0 < 200 ∧
    (∃ m, generate_slice demoLevel = some m ∧
      (∀ i j, m.val i j = demoLevel.val [100, i * 5, j * 5]) ∧
      m.rows = ((List.range 1000).filter fun i => i % 5 == 0).length ∧
      m.cols = ((List.range 1000).filter fun j => j % 5 == 0).length) :=
  ⟨rfl, by decide,
    claim_C2_middle_slice_strides demoLevel 200 1000 1000 rfl (by decide)⟩

/-- Claim C3: normalization computes the slice's min and max; when
`max > min` every valid sample is mapped to
`⌊(v - min) / (max - min) * 255⌋` (an unsigned byte, i.e. at most 255),
when `min = max` the output is all-zero, and the output always keeps the
slice's shape. -/
theorem claim_C3_normalization (m : Mat) (_hne : matEntries m ≠ []) :
    (pyMin (matEntries m) < pyMax (matEntries m) →
      ∀ i j, i < m.rows → j < m.cols →
        (normalizeMat m).val i j =
          (⌊(m.val i j - pyMin (matEntries m)) /
              (pyMax (matEntries m) - pyMin (matEntries m)) * 255⌋).toNat ∧
        (normalizeMat m).val i j ≤ 255) ∧
    (pyMin (matEntries m) = pyMax (matEntries m) →
      ∀ i j, (normalizeMat m).val i j = 0) ∧
    (normalizeMat m).rows = m.rows ∧ (normalizeMat m).cols = m.cols := by
  refine ⟨?_, ?_, ?_, ?_⟩
  · intro hlt i j hi hj
    constructor
    · simp [normalizeMat, if_pos hlt]
    · have hv := mat_val_mem_entries m hi hj
      have h1 : pyMin (matEntries m) ≤ m.val i j := pyMin_le_mem hv
      have h2 : m.val i j ≤ pyMax (matEntries m) := mem_le_pyMax hv
      have hpos : (0 : ℚ) < pyMax (matEntries m) - pyMin (matEntries m) := by
        linarith
      have hle1 :
          (m.val i j - pyMin (matEntries m)) /
            (pyMax (matEntries m) - pyMin (matEntries m)) ≤ 1 := by
        rw [div_le_one hpos]
        linarith
      have hle :
          (m.val i j - pyMin (matEntries m)) /
            (pyMax (matEntries m) - pyMin (matEntries m)) * 255 ≤ 255 := by
        calc (m.val i j - pyMin (matEntries m)) /
              (pyMax (matEntries m) - pyMin (matEntries m)) * 255
            ≤ 1 * 255 := by
              exact mul_le_mul_of_nonneg_right hle1 (by norm_num)
          _ = 255 := one_mul 255
      have hfloor :
          ⌊(m.val i j - pyMin (matEntries m)) /
              (pyMax (matEntries m) - pyMin (matEntries m)) * 255⌋ ≤ 255 := by
        have h255 : (⌊(255 : ℚ)⌋ : ℤ) = 255 := by norm_num
        have := Int.floor_le_floor hle
        rw [h255] at this
        exact this
      show (normalizeMat m).val i j ≤ 255
      simp only [normalizeMat, if_pos hlt]
      exact Int.toNat_le.mpr (by exact_mod_cast hfloor)
  · intro heq i j
    have hnlt : ¬ pyMin (matEntries m) < pyMax (matEntries m) := by
      rw [heq]
      exact lt_irrefl _
    simp [normalizeMat, if_neg hnlt]
  · unfold normalizeMat
    split <;> rfl
  · unfold normalizeMat
    split <;> rfl

/-- Witness for C3: on the `1 × 3` slice `[10, 15, 20]` (min 10, max 20)
the hypotheses hold and the sample of value 15 maps to byte 127. -/
theorem claim_C3_witness :
    matEntries demoSlice ≠ [] ∧
    ((pyMin (matEntries demoSlice) < pyMax (matEntries demoSlice) →
      ∀ i j, i < demoSlice.rows → j < demoSlice.cols →
        (normalizeMat demoSlice).val i j =
          (⌊(demoSlice.val i j - pyMin (matEntries demoSlice)) /
              (pyMax (matEntries demoSlice) - pyMin (matEntries demoSlice)) *
              255⌋).toNat ∧
        (normalizeMat demoSlice).val i j ≤ 255) ∧
    (pyMin (matEntries demoSlice) = pyMax (matEntries demoSlice) →
      ∀ i j, (normalizeMat demoSlice).val i j = 0) ∧
    (normalizeMat demoSlice).rows = demoSlice.rows ∧
    (normalizeMat demoSlice).cols = demoSlice.cols) ∧
    (normalizeMat demoSlice).val 0 1 = 127 := by
  refine ⟨by decide, claim_C3_normalization demoSlice (by decide), ?_⟩
  have hlt : pyMin (matEntries demoSlice) < pyMax (matEntries demoSlice) := by
    decide
  have hmin : pyMin (matEntries demoSlice) = 10 := by decide
  have hmax : pyMax (matEntries demoSlice) = 20 := by decide
  have hv : demoSlice.val 0 1 = 15 := by decide
  simp only [normalizeMat, if_pos hlt]
  simp only [hmin, hmax, hv]
  have h127 : ⌊((15 : ℚ) - 10) / (20 - 10) * 255⌋ = 127 := by norm_num
  rw [h127]
  rfl

/-- Counterexample for C7: a channel-bearing source (shape `(2, 4, 4, 3)`,
a trailing channel axis of size 3) is rejected by the generator — it
returns `None` instead of a 3D channel-preserving thumbnail. -/
theorem claim_C7_counterexample :
    chanLevelA.shape = [2, 4, 4, 3] ∧
    generate_thumbnail_array chanLevelA = none :=
  ⟨rfl, rfl⟩

/-- Amended claim C7: the generator's output, when produced, is always 2D;
any source whose shape is not exactly 3 axes — in particular one carrying a
trailing channel axis — fails the `z, y, x` shape unpacking and yields
`None`. -/
theorem claim_C7_rank3_only (a : ZarrArray) (h : a.shape.length ≠ 3) :
    generate_thumbnail_array a = none := by
  have hs : generate_slice a = none := by
    rcases a with ⟨sh, v⟩
    cases sh with
    | nil => rfl
    | cons z t =>
      cases t with
      | nil => rfl
      | cons y t2 =>
        cases t2 with
        | nil => rfl
        | cons x t3 =>
          cases t3 with
          | nil => simp at h
          | cons w t4 => rfl
  simp [generate_thumbnail_array, hs]

/-- Witness for the amended C7: the statement at the RGBA-shaped source
`(3, 5, 5, 4)`. -/
theorem claim_C7_witness :
    chanLevelB.shape.length ≠ 3 ∧
    generate_thumbnail_array chanLevelB = none :=
  ⟨by decide, claim_C7_rank3_only chanLevelB (by decide)⟩

/-! ## Claim theorems: callbacks and cancellation -/

/-- Claim C4 is violated by the code: with two submissions on one manager,
the single worker emission for "id1" invokes both connected callbacks with
"id1"'s payload (two invocations carrying that id, not one), and callback 1
is invoked twice across the two completions (not at most once). -/
theorem claim_C4_shared_signal_duplicates :
    ((emitLoaded demoMgr "id1" true).filter fun c => c.tid == "id1").length = 2 ∧
    ((emitLoaded demoMgr "id1" true ++ emitLoaded demoMgr "id2" true).filter
        fun c => c.cb == 1).length = 2 := by
  decide

/-- Counterexample to claim C5: with the flag clear at the only read point
(entry) but set at every later safe point — before slice generation, before
pixmap conversion, before emission — the ChimeraX run still completes and
invokes the callback with a result. -/
theorem claim_C5_counterexample :
    (fun k => decide (1 ≤ k)) 0 = false ∧
    (fun k => decide (1 ≤ k)) 1 = true ∧
    chimeraxRun ⟨true, true, true⟩ (fun k => decide (1 ≤ k)) =
      [(true, none)] := by
  decide

/-- Amended claim C5: the cancellation flag is checked at exactly one safe
point, on entry (before source selection). If it is set there, the
ChimeraX worker returns without emitting any callback, and the napari
worker returns the "Cancelled" marker whose delivery the flag-guarded
handler then suppresses. A flag set after that single check does not stop
the execution. -/
theorem claim_C5_single_entry_check :
    (∀ (fl : StageFlags) (flagAt : Nat → Bool), flagAt 0 = true →
      chimeraxRun fl flagAt = []) ∧
    (∀ fl : StageFlags, napariRun fl true true = []) := by
  constructor
  · intro fl flagAt h
    simp [chimeraxRun, h]
  · intro fl
    rfl

/-- Witness for the amended C5: a concrete run with the flag set at entry
emits nothing on either backend. -/
theorem claim_C5_witness :
    ((fun _ : Nat => true) 0 = true) ∧
    chimeraxRun ⟨true, true, true⟩ (fun _ => true) = [] ∧
    napariRun ⟨true, true, true⟩ true true = [] :=
  ⟨rfl, claim_C5_single_entry_check.1 ⟨true, true, true⟩ (fun _ => true) rfl,
    claim_C5_single_entry_check.2 ⟨true, true, true⟩⟩

/-- Claim C10: in the napari worker, if the flag is set by the time the
background result (or error) is delivered, the callback is not invoked at
all — zero callbacks, even when the thumbnail was fully computed before
cancellation (any `flagStart`, any stage outcome). -/
theorem claim_C10_cancel_suppresses_delivery :
    (∀ (fl : StageFlags) (flagStart : Bool), napariRun fl flagStart true = []) ∧
    (∀ err : String, napariOnError true err = []) := by
  constructor
  · intro fl flagStart
    rfl
  · intro err
    rfl

/-! ## Claim theorem: atomic cache writes (spec-modelled) -/

/-- Claim C8 (spec-modelled): under any interleaving of save actions —
including two writers racing on the same key — the key-indexed main area
only ever holds fully written entries (readers never observe an
in-progress file), and a rename installs exactly the finished temp file's
bytes under the key in one step. -/
theorem claim_C8_atomic_replace :
    (∀ steps : List SaveStep, mainAllComplete (runSteps emptyFS steps)) ∧
    (∀ (s : CacheFS) (t : Nat) (k : String) (bs : List Nat),
      s.tmp t = some (FileData.complete bs) →
      (applyStep s (SaveStep.renameTo t k)).main k =
        some (FileData.complete bs)) := by
  constructor
  · have key : ∀ (steps : List SaveStep) (s : CacheFS),
        mainAllComplete s → mainAllComplete (runSteps s steps) := by
      intro steps
      induction steps with
      | nil => intro s hs; exact hs
      | cons st rest ih =>
        intro s hs
        apply ih
        cases st with
        | tmpOpen t => exact hs
        | tmpAppend t b => exact hs
        | tmpClose t => exact hs
        | renameTo t k =>
          intro k2 d hd
          cases htmp : s.tmp t with
          | none =>
            simp only [applyStep, htmp] at hd
            exact hs k2 d hd
          | some fd =>
            cases fd with
            | writing ws =>
              simp only [applyStep, htmp] at hd
              exact hs k2 d hd
            | complete bs =>
              simp only [applyStep, htmp] at hd
              by_cases hk : k2 = k
              · rw [if_pos hk] at hd
                exact ⟨bs, (Option.some.injEq _ _).mp hd |>.symm⟩
              · rw [if_neg hk] at hd
                exact hs k2 d hd
    intro steps
    refine key steps emptyFS ?_
    intro k d hd
    simp [emptyFS] at hd
  · intro s t k bs htmp
    simp [applyStep, htmp]

/-- Witness for C8: renaming the finished temp file 0 onto a concrete key
makes exactly its bytes the entry under that key. -/
theorem claim_C8_witness :
    demoFS.tmp 0 = some (FileData.complete [7, 9]) ∧
    (applyStep demoFS (SaveStep.renameTo 0 "run1_wbp_10")).main "run1_wbp_10" =
      some (FileData.complete [7, 9]) :=
  ⟨rfl, claim_C8_atomic_replace.2 demoFS 0 "run1_wbp_10" [7, 9] rfl⟩

end CopickUI
